import Mathlib

/-!
# torrent-batch: the `/pretty` status handler and the directory-watch event loop

A shallow embedding of `cmd/torrent-batch/main.go`.

* Go's `int` is the 64-bit two's complement integer: `GoInt` carries the range,
  and `GoInt.add` wraps.
* The torrent client, the directory watcher, `sort.Slice`, `humanize.Bytes` and the
  `%q` verb are library code.  The client is a record of operations over an explicit
  client state; the formatting helpers and the sorter are parameters.
* A torrent's `Length()` and `NumPieces()` panic while its metadata has not arrived;
  the handler's response records the writes made and whether it panicked.
* A goroutine started by the loop is a little program counter machine that is run
  against a schedule of observations of the torrent's `GotInfo` channel.
-/

namespace TorrentBatch

/-! ## Go integers -/

/-- Two's complement reduction of an integer to the range of Go's 64-bit `int`. -/
def wrapInt (x : Int) : Int :=
  (x + 9223372036854775808) % 18446744073709551616 - 9223372036854775808

/-- A value of Go's `int` type (64-bit). -/
abbrev GoInt : Type := { x : Int // -9223372036854775808 ≤ x ∧ x ≤ 9223372036854775807 }

/-- The zero value of an `int` variable (`var completedPieces, partialPieces int`). -/
def GoInt.zero : GoInt := ⟨0, by omega⟩

/-- Go's `+=` on `int`: addition with wrap-around. -/
def GoInt.add (a b : GoInt) : GoInt :=
  ⟨wrapInt (a.1 + b.1), by unfold wrapInt; omega⟩

/-- The conversion `uint64(x)` of an `int64`. -/
def toUint64 (x : Int) : Nat := (x % 18446744073709551616).toNat

/-! ## Info hashes -/

/-- A `metainfo.Hash`: twenty bytes. -/
abbrev InfoHash : Type := { l : List (Fin 256) // l.length = 20 }

/-- One lowercase hexadecimal digit. -/
def hexDigit (n : Nat) : Char :=
  if n < 10 then Char.ofNat (48 + n) else Char.ofNat (87 + n)

/-- The two hexadecimal digits of a byte, high nibble first. -/
def hexByte (b : Fin 256) : List Char := [hexDigit (b.1 / 16), hexDigit (b.1 % 16)]

/-- The characters of `fmt.Sprintf("%x", bytes)`. -/
def hexChars : List (Fin 256) → List Char
  | [] => []
  | b :: bs => hexByte b ++ hexChars bs

/-- The method `metainfo.Hash.HexString`: forty lowercase hexadecimal digits. -/
def InfoHash.hexString (h : InfoHash) : String := String.mk (hexChars h.1)

/-! ## Torrents as the `/pretty` handler reads them -/

/-- The fields of `torrent.PieceStateRun` the handler reads. -/
structure PieceStateRun where
  complete : Bool
  partial_ : Bool
  length : GoInt
deriving DecidableEq

/-- What the `/pretty` handler reads off a `*torrent.Torrent`.  The methods `Length()`
and `NumPieces()` read the torrent's info and panic on a nil pointer while the metadata
has not arrived, as for a magnet link before `GotInfo()` resolves: `none` stands for a
call that panics. -/
structure Torrent where
  infoHash : InfoHash
  name : String
  bytesCompleted : Int
  length : Option Int
  numPieces : Option GoInt
  pieceStateRuns : List PieceStateRun
deriving DecidableEq

/-- The body of `for _, r := range psrs`, on the pair `(completedPieces, partialPieces)`. -/
def countRun (acc : GoInt × GoInt) (r : PieceStateRun) : GoInt × GoInt :=
  let completedPieces := if r.complete then acc.1.add r.length else acc.1
  let partialPieces := if r.partial_ then acc.2.add r.length else acc.2
  (completedPieces, partialPieces)

/-- The loop `for _, r := range psrs` started from given counters. -/
def countRunsFrom : GoInt × GoInt → List PieceStateRun → GoInt × GoInt
  | acc, [] => acc
  | acc, r :: rs => countRunsFrom (countRun acc r) rs

/-- The counters `(completedPieces, partialPieces)` after the loop over the runs. -/
def countPieces (psrs : List PieceStateRun) : GoInt × GoInt :=
  countRunsFrom (GoInt.zero, GoInt.zero) psrs

/-- The value of `completedPieces` passed to `Fprintf`. -/
def completedPieces (t : Torrent) : GoInt := (countPieces t.pieceStateRuns).1

/-- The value of `partialPieces` passed to `Fprintf`. -/
def partialPieces (t : Torrent) : GoInt := (countPieces t.pieceStateRuns).2

/-- The formatting helpers the handler calls: the `%q` verb and `humanize.Bytes`. -/
structure Fmt where
  quote : String → String
  humanizeBytes : Nat → String

/-- The text produced by the verbs `%q: %s/%s, ` after the word `downloading`, for the
value `length` returned by `t.Length()`. -/
def progressText (f : Fmt) (t : Torrent) (length : Int) : String :=
  "downloading " ++ f.quote t.name ++ ": " ++ f.humanizeBytes (toUint64 t.bytesCompleted)
    ++ "/" ++ f.humanizeBytes (toUint64 length) ++ ", "

/-- The text produced by `%d/%d pieces completed (%d partial)`. -/
def piecesText (completed total part : GoInt) : String :=
  toString completed.1 ++ "/" ++ toString total.1 ++ " pieces completed ("
    ++ toString part.1 ++ " partial)"

/-- One `fmt.Fprintf` call of the handler: the summary line of a torrent.  The arguments
are evaluated before the call, so a panic of `t.Length()` or of `t.NumPieces()` leaves
nothing written for the torrent: `none`. -/
def summaryLine (f : Fmt) (t : Torrent) : Option String :=
  match t.length, t.numPieces with
  | some length, some numPieces =>
    some (progressText f t length ++
      (piecesText (completedPieces t) numPieces (partialPieces t) ++ "\n"))
  | _, _ => none

/-- What one `/pretty` request does: the `Fprintf` writes it makes, in order, and whether
the handler panicked instead of returning. -/
structure Response where
  writes : List String
  panicked : Bool
deriving DecidableEq

/-- The loop `for _, t := range torrents`: it ends at the first panic. -/
def writeSummaries (f : Fmt) : List Torrent → Response
  | [] => ⟨[], false⟩
  | t :: ts =>
    match summaryLine f t with
    | none => ⟨[], true⟩
    | some line =>
      let r := writeSummaries f ts
      ⟨line :: r.writes, r.panicked⟩

/-- The comparison handed to `sort.Slice`: `t1 < t2` on the hex strings. -/
def hexLess (a b : Torrent) : Bool := decide (a.infoHash.hexString < b.infoHash.hexString)

/-- The type of `sort.Slice` on a slice of torrents. -/
abbrev Sorter : Type := (Torrent → Torrent → Bool) → List Torrent → List Torrent

/-- The torrents in the order the handler ranges over them after `sort.Slice`. -/
def prettyOrder (sortSlice : Sorter) (torrents : List Torrent) : List Torrent :=
  sortSlice hexLess torrents

/-- The `/pretty` handler on the list `client.Torrents()` returns. -/
def prettyHandler (sortSlice : Sorter) (f : Fmt) (torrents : List Torrent) : Response :=
  writeSummaries f (prettyOrder sortSlice torrents)

/-- The `Fprintf` writes of one `/pretty` request, in order. -/
def prettyWrites (sortSlice : Sorter) (f : Fmt) (torrents : List Torrent) : List String :=
  (prettyHandler sortSlice f torrents).writes

/-- The response body of one `/pretty` request. -/
def prettyBody (sortSlice : Sorter) (f : Fmt) (torrents : List Torrent) : String :=
  String.join (prettyWrites sortSlice f torrents)

/-- What Go documents of `sort.Slice` for the handler's comparison: the slice is
reordered (nothing dropped or duplicated) so that no later element is less than an
earlier one.  Stability is not promised. -/
def SortsByHex (sortSlice : Sorter) : Prop :=
  ∀ l : List Torrent,
    (sortSlice hexLess l).Perm l ∧ (sortSlice hexLess l).Pairwise (fun a b => hexLess b a = false)

/-- An insertion sort, one of the algorithms behind `sort.Slice`. -/
def insertionSlice : Sorter :=
  fun less l => l.insertionSort (fun a b => less b a = false)

/-! ## The directory watcher and the client, as the event loop uses them -/

/-- The type `dirwatch.Change`, an unsigned integer. -/
abbrev Change : Type := Nat

/-- The constant `dirwatch.Added`. -/
def Added : Change := 0

/-- The constant `dirwatch.Removed`. -/
def Removed : Change := 1

/-- The struct `dirwatch.Event`. -/
structure Event where
  magnetURI : String
  change : Change
  torrentFilePath : String
  infoHash : InfoHash
deriving DecidableEq

/-- The client methods the loop calls, over an explicit client state `σ`.  A torrent
handle `T` stands for a non-nil `*torrent.Torrent`; `none` is the nil pointer, and for
`torrent` it is the result with `ok = false`.  An add returns a handle and an error
independently of each other, as a Go function of type `(*Torrent, error)` may. -/
structure Client (σ T : Type) where
  addTorrentFromFile : σ → String → σ × Option T × Option String
  addMagnet : σ → String → σ × Option T × Option String
  torrent : σ → InfoHash → Option T
  drop : σ → T → σ
  completed : σ → T → Bool

/-- The calls made by the loop and by the goroutines it starts.  `go t` is the `go`
statement for torrent `t`; `downloadAll t` is issued by a goroutine only. -/
inductive Call (T : Type) where
  | addTorrentFromFile (path : String)
  | addMagnet (uri : String)
  | logPrintf (msg : String)
  | torrent (ih : InfoHash)
  | drop (t : T)
  | completed (t : T)
  | go (t : T)
  | downloadAll (t : T)
deriving DecidableEq

/-- The variables `t` and `err` after the `switch`, with the client state and the calls
made so far. -/
structure Dispatch (σ T : Type) where
  client : σ
  t : Option T
  err : Option String
  calls : List (Call T)

/-- The statement `if err != nil { log.Printf(msg, err) }`. -/
def logIfErr {T : Type} (msg : String) : Option String → List (Call T)
  | none => []
  | some err => [Call.logPrintf (msg ++ err)]

/-- The statement `switch ev.Change { ... }`.  The `break` of the `Removed` case leaves
the `switch`, not the loop. -/
def dispatch {σ T : Type} (c : Client σ T) (s : σ) (ev : Event) : Dispatch σ T :=
  if ev.change = Added then
    if ev.torrentFilePath ≠ "" then
      let r := c.addTorrentFromFile s ev.torrentFilePath
      ⟨r.1, r.2.1, r.2.2,
        Call.addTorrentFromFile ev.torrentFilePath ::
          logIfErr "error adding torrent to client: " r.2.2⟩
    else if ev.magnetURI ≠ "" then
      let r := c.addMagnet s ev.magnetURI
      ⟨r.1, r.2.1, r.2.2, Call.addMagnet ev.magnetURI :: logIfErr "error adding magnet: " r.2.2⟩
    else ⟨s, none, none, []⟩
  else if ev.change = Removed then
    match c.torrent s ev.infoHash with
    | none => ⟨s, none, none, [Call.torrent ev.infoHash]⟩
    | some found => ⟨c.drop s found, none, none, [Call.torrent ev.infoHash, Call.drop found]⟩
  else ⟨s, none, none, []⟩

/-- The statement `if t != nil && !t.Completed() { go func() { ... }() }`. -/
def startDownload {σ T : Type} (c : Client σ T) (s : σ) : Option T → List (Call T)
  | none => []
  | some t => if c.completed s t then [Call.completed t] else [Call.completed t, Call.go t]

/-- One iteration of `for ev := range dw.Events`: the client state and the calls made. -/
def handleEvent {σ T : Type} (c : Client σ T) (s : σ) (ev : Event) : σ × List (Call T) :=
  let d := dispatch c s ev
  (d.client, d.calls ++ startDownload c d.client d.t)

/-- The loop `for ev := range dw.Events` over the events the channel delivers before it
is closed: the final client state and, per iteration, the event received and the calls
made for it. -/
def eventLoop {σ T : Type} (c : Client σ T) :
    σ → List Event → σ × List (Event × List (Call T))
  | s, [] => (s, [])
  | s, ev :: evs =>
    let h := handleEvent c s ev
    let r := eventLoop c h.1 evs
    (r.1, (ev, h.2) :: r.2)

/-- What a run of `mainExitCode` leaves behind. -/
structure Run (σ T : Type) where
  exitCode : Int
  log : List String
  iterations : List (Event × List (Call T))
  client : Option σ

/-- The function `mainExitCode`, given the results of `torrent.NewClient` and of
`dirwatch.New`; the watcher is given by the events its channel delivers before it is
closed. -/
def mainExitCode {σ T : Type} (c : Client σ T) (newClient : Except String σ)
    (dirwatchNew : Except String (List Event)) : Run σ T :=
  match newClient with
  | .error err => ⟨1, [err], [], none⟩
  | .ok s =>
    match dirwatchNew with
    | .error err => ⟨1, ["error watching torrent dir: " ++ err], [], some s⟩
    | .ok events =>
      let r := eventLoop c s events
      ⟨0, [], r.2, some r.1⟩

/-- The torrents for which a list of calls starts a goroutine. -/
def goroutinesOf {T : Type} : List (Call T) → List T
  | [] => []
  | Call.go t :: cs => t :: goroutinesOf cs
  | _ :: cs => goroutinesOf cs

/-- The torrents a list of calls drops. -/
def dropsOf {T : Type} : List (Call T) → List T
  | [] => []
  | Call.drop t :: cs => t :: dropsOf cs
  | _ :: cs => dropsOf cs

/-- The torrents on which a list of calls invokes `DownloadAll`. -/
def downloadAllsOf {T : Type} : List (Call T) → List T
  | [] => []
  | Call.downloadAll t :: cs => t :: downloadAllsOf cs
  | _ :: cs => downloadAllsOf cs

/-- The adds a list of calls makes, by file path or by magnet URI. -/
def addsOf {T : Type} : List (Call T) → List String
  | [] => []
  | Call.addTorrentFromFile p :: cs => p :: addsOf cs
  | Call.addMagnet u :: cs => u :: addsOf cs
  | _ :: cs => addsOf cs

/-! ## The goroutine `go func() { <-t.GotInfo(); t.DownloadAll() }()` -/

/-- What the receive `<-t.GotInfo()` meets when the goroutine is scheduled: nothing yet
(the receive blocks), or a resolved channel, resolved by the arrival of the metadata or
by the teardown of the torrent. -/
inductive Signal where
  | blocked
  | gotInfo
  | abandoned
deriving DecidableEq

/-- Whether a receive completes: a receive expression used as a statement completes on
any resolution and discards what it received. -/
def Signal.resolved : Signal → Bool
  | .blocked => false
  | .gotInfo => true
  | .abandoned => true

/-- The goroutine's program counter. -/
inductive Goroutine (T : Type) where
  | awaitGotInfo (t : T)
  | callDownloadAll (t : T)
  | exited
deriving DecidableEq

/-- The goroutine a `go` statement starts for torrent `t`. -/
def downloadTrigger {T : Type} (t : T) : Goroutine T := .awaitGotInfo t

/-- One scheduling of the goroutine. -/
def Goroutine.step {T : Type} : Goroutine T → Signal → Goroutine T × List (Call T)
  | .awaitGotInfo t, sig =>
    if sig.resolved then (.callDownloadAll t, []) else (.awaitGotInfo t, [])
  | .callDownloadAll t, _ => (.exited, [Call.downloadAll t])
  | .exited, _ => (.exited, [])

/-- The goroutine run along a schedule of observations of its channel. -/
def Goroutine.run {T : Type} : Goroutine T → List Signal → Goroutine T × List (Call T)
  | g, [] => (g, [])
  | g, sig :: sigs =>
    let r := g.step sig
    let rest := Goroutine.run r.1 sigs
    (rest.1, r.2 ++ rest.2)

/-- The `DownloadAll` calls that follow from the handling of one event: those of the
loop itself and those of the goroutines it started, each run along its schedule. -/
def downloadAllsAfter {T : Type} (calls : List (Call T)) (sched : T → List Signal) : List T :=
  downloadAllsOf calls ++
    (goroutinesOf calls).flatMap (fun t => downloadAllsOf ((downloadTrigger t).run (sched t)).2)

/-! ## A small client to run the loop on -/

/-- A client whose state is the list of its active torrents, a torrent being a number.
An add of the path or URI `x` yields torrent `x.length`; the path `"bad"` yields no
torrent and an error, the path `"merge"` yields torrent 5 together with an error.
A lookup reads the first byte of the hash.  Even torrents count as completed. -/
def demoClient : Client (List Nat) Nat where
  addTorrentFromFile := fun s path =>
    if path = "bad" then (s, none, some "malformed")
    else if path = "merge" then (path.length :: s, some path.length, some "merge failed")
    else (path.length :: s, some path.length, none)
  addMagnet := fun s uri => (uri.length :: s, some uri.length, none)
  torrent := fun s ih => s.find? (fun t => t == (ih.1.headD 0).1)
  drop := fun s t => s.erase t
  completed := fun _ t => t % 2 == 0

/-- The hash whose twenty bytes are all `b`. -/
def hashOf (b : Fin 256) : InfoHash := ⟨List.replicate 20 b, by simp⟩

/-! ## Sums of run lengths, as mathematical integers -/

/-- Lengths of the runs flagged `Complete`, added without wrap-around. -/
def completeSum (psrs : List PieceStateRun) : Int :=
  ((psrs.filter (fun r => r.complete)).map (fun r => r.length.1)).sum

/-- Lengths of the runs flagged `Partial`, added without wrap-around. -/
def partialSum (psrs : List PieceStateRun) : Int :=
  ((psrs.filter (fun r => r.partial_)).map (fun r => r.length.1)).sum

/-- Lengths of all the runs, added without wrap-around. -/
def lengthSum (psrs : List PieceStateRun) : Int :=
  (psrs.map (fun r => r.length.1)).sum

/-! ## Concrete torrents -/

/-- Three complete pieces, two partial ones, five untouched ones. -/
def scenarioRuns : List PieceStateRun :=
  [⟨true, false, ⟨3, by omega⟩⟩, ⟨false, true, ⟨2, by omega⟩⟩, ⟨false, false, ⟨5, by omega⟩⟩]

/-- A torrent of ten pieces, a quarter of its thousand bytes completed. -/
def scenarioTorrent : Torrent :=
  ⟨hashOf 0xAA, "a.desc", 250, some 1000, some ⟨10, by omega⟩, scenarioRuns⟩

/-- A second torrent, of no pieces and with no piece-state runs. -/
def emptyTorrent : Torrent :=
  ⟨hashOf 0x0B, "b.desc", 0, some 0, some ⟨0, by omega⟩, []⟩

/-- A torrent added from a magnet link whose metadata has not arrived. -/
def magnetTorrent : Torrent :=
  ⟨hashOf 0x07, "magnet", 0, none, none, []⟩

/-- Formatting helpers to render concrete lines with. -/
def demoFmt : Fmt :=
  ⟨fun s => "\"" ++ s ++ "\"", fun n => toString n ++ " B"⟩

/-! ## Concrete events -/

/-- An `Added` event for the descriptor file `a.desc`. -/
def addedFile : Event := ⟨"", Added, "a.desc", hashOf 6⟩

/-- An `Added` event for a file on which the client reports an error and no torrent. -/
def addedBad : Event := ⟨"", Added, "bad", hashOf 3⟩

/-- An `Added` event for a file on which the client reports an error and a torrent. -/
def addedMerge : Event := ⟨"", Added, "merge", hashOf 5⟩

/-- An `Added` event for a magnet URI of nine characters. -/
def addedMagnet : Event := ⟨"magnet:?x", Added, "", hashOf 9⟩

/-- The `Removed` event for the hash of `addedMagnet`. -/
def removedMagnet : Event := ⟨"", Removed, "", hashOf 9⟩

/-! ## Lemmas: wrap-around and the counters -/

theorem wrapInt_add_left (a b : Int) : wrapInt (wrapInt a + b) = wrapInt (a + b) := by
  unfold wrapInt; omega

theorem wrapInt_of_range (x : Int) (h1 : -9223372036854775808 ≤ x)
    (h2 : x ≤ 9223372036854775807) : wrapInt x = x := by
  unfold wrapInt; omega

theorem wrapInt_goInt (x : GoInt) : wrapInt x.1 = x.1 :=
  wrapInt_of_range x.1 x.2.1 x.2.2

theorem completeSum_cons (r : PieceStateRun) (rs : List PieceStateRun) :
    completeSum (r :: rs) = (if r.complete then r.length.1 else 0) + completeSum rs := by
  unfold completeSum
  cases h : r.complete <;> simp [List.filter, h]

theorem partialSum_cons (r : PieceStateRun) (rs : List PieceStateRun) :
    partialSum (r :: rs) = (if r.partial_ then r.length.1 else 0) + partialSum rs := by
  unfold partialSum
  cases h : r.partial_ <;> simp [List.filter, h]

theorem lengthSum_cons (r : PieceStateRun) (rs : List PieceStateRun) :
    lengthSum (r :: rs) = r.length.1 + lengthSum rs := by
  simp [lengthSum]

theorem countRunsFrom_val (psrs : List PieceStateRun) :
    ∀ acc : GoInt × GoInt,
      (countRunsFrom acc psrs).1.1 = wrapInt (acc.1.1 + completeSum psrs) ∧
      (countRunsFrom acc psrs).2.1 = wrapInt (acc.2.1 + partialSum psrs) := by
  induction psrs with
  | nil =>
    intro acc
    simp [countRunsFrom, completeSum, partialSum, wrapInt_goInt]
  | cons r rs ih =>
    intro acc
    obtain ⟨h1, h2⟩ := ih (countRun acc r)
    simp only [countRunsFrom]
    rw [h1, h2, completeSum_cons, partialSum_cons]
    constructor
    · cases hc : r.complete
      · simp [countRun, hc]
      · simp [countRun, hc, GoInt.add, wrapInt_add_left, add_assoc]
    · cases hp : r.partial_
      · simp [countRun, hp]
      · simp [countRun, hp, GoInt.add, wrapInt_add_left, add_assoc]

theorem countPieces_val (psrs : List PieceStateRun) :
    (countPieces psrs).1.1 = wrapInt (completeSum psrs) ∧
    (countPieces psrs).2.1 = wrapInt (partialSum psrs) := by
  have h := countRunsFrom_val psrs (GoInt.zero, GoInt.zero)
  simpa [countPieces, GoInt.zero] using h

theorem sums_le_lengthSum (psrs : List PieceStateRun)
    (hnn : ∀ r ∈ psrs, 0 ≤ r.length.1)
    (hex : ∀ r ∈ psrs, ¬ (r.complete = true ∧ r.partial_ = true)) :
    0 ≤ completeSum psrs ∧ 0 ≤ partialSum psrs ∧
      completeSum psrs + partialSum psrs ≤ lengthSum psrs := by
  induction psrs with
  | nil => simp [completeSum, partialSum, lengthSum]
  | cons r rs ih =>
    have hr := hnn r (List.mem_cons_self _ _)
    have he := hex r (List.mem_cons_self _ _)
    obtain ⟨i1, i2, i3⟩ := ih (fun x hx => hnn x (List.mem_cons_of_mem _ hx))
      (fun x hx => hex x (List.mem_cons_of_mem _ hx))
    rw [completeSum_cons, partialSum_cons, lengthSum_cons]
    cases hc : r.complete <;> cases hp : r.partial_ <;> simp [hc, hp] at he ⊢ <;> omega

/-! ## Lemmas: hex strings and sorting -/

theorem hexDigit_inj16 : ∀ n m : Fin 16, hexDigit n.1 = hexDigit m.1 → n = m := by decide

theorem hexDigit_inj (n m : Nat) (hn : n < 16) (hm : m < 16) (h : hexDigit n = hexDigit m) :
    n = m := by
  have := hexDigit_inj16 ⟨n, hn⟩ ⟨m, hm⟩ h
  exact congrArg Fin.val this

theorem hexByte_inj (a b : Fin 256) (h : hexByte a = hexByte b) : a = b := by
  simp only [hexByte, List.cons.injEq, and_true] at h
  have ha := a.2
  have hb := b.2
  have h1 := hexDigit_inj _ _ (by omega) (by omega) h.1
  have h2 := hexDigit_inj _ _ (by omega) (by omega) h.2
  apply Fin.ext
  omega

theorem hexChars_inj : ∀ l1 l2 : List (Fin 256), hexChars l1 = hexChars l2 → l1 = l2
  | [], [] => fun _ => rfl
  | [], b :: bs => fun h => by simp [hexChars, hexByte] at h
  | a :: as, [] => fun h => by simp [hexChars, hexByte] at h
  | a :: as, b :: bs => fun h => by
    simp only [hexChars, hexByte, List.cons_append, List.nil_append, List.cons.injEq] at h
    have hab : a = b := hexByte_inj a b (by simp [hexByte, h.1, h.2.1])
    rw [hab, hexChars_inj as bs h.2.2]

theorem hexString_inj (h1 h2 : InfoHash) (h : h1.hexString = h2.hexString) : h1 = h2 := by
  apply Subtype.ext
  apply hexChars_inj
  exact congrArg String.data h

theorem hexLess_false_iff (a b : Torrent) :
    hexLess b a = false ↔ a.infoHash.hexString ≤ b.infoHash.hexString := by
  simp [hexLess]

theorem insertionSlice_sortsByHex : SortsByHex insertionSlice := by
  intro l
  refine ⟨List.perm_insertionSort _ l, ?_⟩
  haveI : IsTotal Torrent (fun a b => hexLess b a = false) :=
    ⟨fun a b => by simp only [hexLess_false_iff]; exact le_total _ _⟩
  haveI : IsTrans Torrent (fun a b => hexLess b a = false) :=
    ⟨fun a b c h1 h2 => by
      simp only [hexLess_false_iff] at h1 h2 ⊢; exact le_trans h1 h2⟩
  exact List.sorted_insertionSort (fun a b => hexLess b a = false) l

theorem sorted_perm_unique (l1 l2 : List Torrent) (hp : l1.Perm l2)
    (hnd : (l1.map (fun t => t.infoHash)).Nodup)
    (h1 : l1.Pairwise (fun a b => hexLess b a = false))
    (h2 : l2.Pairwise (fun a b => hexLess b a = false)) : l1 = l2 := by
  have key : ∀ l : List Torrent, (l.map (fun t => t.infoHash)).Nodup →
      l.Pairwise (fun a b => hexLess b a = false) →
      l.Pairwise (fun a b => a.infoHash.hexString < b.infoHash.hexString) := by
    intro l hn hs
    have hn2 : l.Pairwise (fun a b => a.infoHash ≠ b.infoHash) := List.pairwise_map.mp hn
    refine (hs.and hn2).imp ?_
    intro a b hab
    have hle := (hexLess_false_iff a b).mp hab.1
    exact lt_of_le_of_ne hle (fun e => hab.2 (hexString_inj _ _ e))
  haveI : IsAntisymm Torrent (fun a b => a.infoHash.hexString < b.infoHash.hexString) :=
    ⟨fun a b x y => absurd y (lt_asymm x)⟩
  have hnd2 : (l2.map (fun t => t.infoHash)).Nodup := ((hp.map _).nodup_iff).mp hnd
  exact List.eq_of_perm_of_sorted hp (key l1 hnd h1) (key l2 hnd2 h2)

theorem sums_le_total (psrs : List PieceStateRun) (hnn : ∀ r ∈ psrs, 0 ≤ r.length.1) :
    0 ≤ completeSum psrs ∧ completeSum psrs ≤ lengthSum psrs ∧
      0 ≤ partialSum psrs ∧ partialSum psrs ≤ lengthSum psrs := by
  induction psrs with
  | nil => simp [completeSum, partialSum, lengthSum]
  | cons r rs ih =>
    have hr := hnn r (List.mem_cons_self _ _)
    obtain ⟨i1, i2, i3, i4⟩ := ih (fun x hx => hnn x (List.mem_cons_of_mem _ hx))
    rw [completeSum_cons, partialSum_cons, lengthSum_cons]
    cases hc : r.complete <;> cases hp : r.partial_ <;> simp <;> omega

theorem writeSummaries_of_info (f : Fmt) (l : List Torrent)
    (hinfo : ∀ t ∈ l, t.length ≠ none ∧ t.numPieces ≠ none) :
    (writeSummaries f l).panicked = false ∧
    List.Forall₂
      (fun t w => ∃ len n, t.length = some len ∧ t.numPieces = some n ∧
        w = ("downloading " ++ f.quote t.name ++ ": " ++
              f.humanizeBytes (toUint64 t.bytesCompleted) ++ "/" ++
              f.humanizeBytes (toUint64 len) ++ ", ") ++
            ((toString (completedPieces t).1 ++ "/" ++ toString n.1 ++ " pieces completed (" ++
              toString (partialPieces t).1 ++ " partial)") ++ "\n"))
      l (writeSummaries f l).writes := by
  induction l with
  | nil => exact ⟨rfl, List.Forall₂.nil⟩
  | cons t ts ih =>
    obtain ⟨h1, h2⟩ := ih (fun x hx => hinfo x (List.mem_cons_of_mem _ hx))
    obtain ⟨hl, hn⟩ := hinfo t (List.mem_cons_self _ _)
    obtain ⟨len, hlen⟩ := Option.ne_none_iff_exists'.mp hl
    obtain ⟨n, hnum⟩ := Option.ne_none_iff_exists'.mp hn
    have hline : summaryLine f t = some (progressText f t len ++
        (piecesText (completedPieces t) n (partialPieces t) ++ "\n")) := by
      simp [summaryLine, hlen, hnum]
    simp only [writeSummaries, hline]
    exact ⟨h1, List.Forall₂.cons ⟨len, n, hlen, hnum, rfl⟩ h2⟩

/-! ## The `/pretty` handler -/

/-- C3: for the runs a session reports, whose lengths are non-negative and tile a number
of pieces that is a Go `int`, `completedPieces` is the sum of the lengths of the complete
runs and `partialPieces` that of the partial runs.  Both are 0 for the empty run list,
and for the runs `[(3,complete),(2,partial),(5,none)]` of a torrent of 10 pieces the line
ends with `3/10 pieces completed (2 partial)` and the newline. -/
theorem pretty_counts (f : Fmt) (t : Torrent) (n : GoInt)
    (hnn : ∀ r ∈ t.pieceStateRuns, 0 ≤ r.length.1)
    (hsum : lengthSum t.pieceStateRuns = n.1) :
    (completedPieces t).1 = completeSum t.pieceStateRuns ∧
    (partialPieces t).1 = partialSum t.pieceStateRuns ∧
    (t.pieceStateRuns = [] → (completedPieces t).1 = 0 ∧ (partialPieces t).1 = 0) ∧
    (t.pieceStateRuns = scenarioRuns →
      ∀ (len : Int) (np : GoInt), t.length = some len → t.numPieces = some np → np.1 = 10 →
        summaryLine f t =
          some (progressText f t len ++ "3/10 pieces completed (2 partial)\n")) := by
  obtain ⟨hc, hp⟩ := countPieces_val t.pieceStateRuns
  obtain ⟨i1, i2, i3, i4⟩ := sums_le_total t.pieceStateRuns hnn
  have hb := n.2.2
  have ec : (completedPieces t).1 = completeSum t.pieceStateRuns :=
    hc.trans (wrapInt_of_range _ (by omega) (by omega))
  have ep : (partialPieces t).1 = partialSum t.pieceStateRuns :=
    hp.trans (wrapInt_of_range _ (by omega) (by omega))
  refine ⟨ec, ep, ?_, ?_⟩
  · intro h
    rw [ec, ep, h]
    simp [completeSum, partialSum]
  · intro h len np hlen hnum h10
    have e1 : completedPieces t = ⟨3, by omega⟩ := by
      apply Subtype.ext
      show (completedPieces t).1 = 3
      rw [ec, h]; decide
    have e2 : partialPieces t = ⟨2, by omega⟩ := by
      apply Subtype.ext
      show (partialPieces t).1 = 2
      rw [ep, h]; decide
    have e3 : np = ⟨10, by omega⟩ := Subtype.ext h10
    simp only [summaryLine, hlen, hnum, e1, e2, e3]
    rfl

/-- C3 at the torrent of ten pieces with runs of 3 complete, 2 partial and 5 other. -/
theorem pretty_counts_witness :
    (∀ r ∈ scenarioTorrent.pieceStateRuns, 0 ≤ r.length.1) ∧
    lengthSum scenarioTorrent.pieceStateRuns = 10 ∧
    (completedPieces scenarioTorrent).1 = 3 ∧
    (partialPieces scenarioTorrent).1 = 2 ∧
    summaryLine demoFmt scenarioTorrent =
      some "downloading \"a.desc\": 250 B/1000 B, 3/10 pieces completed (2 partial)\n" :=
  ⟨by decide, by decide,
    (pretty_counts demoFmt scenarioTorrent ⟨10, by omega⟩ (by decide) (by decide)).1.trans
      (by decide),
    (pretty_counts demoFmt scenarioTorrent ⟨10, by omega⟩ (by decide) (by decide)).2.1.trans
      (by decide),
    ((pretty_counts demoFmt scenarioTorrent ⟨10, by omega⟩ (by decide) (by decide)).2.2.2
      rfl 1000 ⟨10, by omega⟩ rfl rfl rfl).trans (by decide)⟩

/-- C4, as stated, fails: a session whose metadata has not arrived makes `t.Length()`
panic, so the handler writes no line for it, nor for any session after it in the sorted
order; here the session without metadata sorts first and nothing at all is written for
the two sessions. -/
theorem pretty_panics_without_metadata :
    prettyHandler insertionSlice demoFmt [magnetTorrent] = ⟨[], true⟩ ∧
    (prettyWrites insertionSlice demoFmt [magnetTorrent]).length ≠ [magnetTorrent].length ∧
    (∀ sortSlice : Sorter, SortsByHex sortSlice → ∀ f : Fmt,
      prettyHandler sortSlice f [scenarioTorrent, magnetTorrent] = ⟨[], true⟩) := by
  refine ⟨by decide, by decide, ?_⟩
  intro sortSlice hsort f
  obtain ⟨hp, hs⟩ := hsort [scenarioTorrent, magnetTorrent]
  have hsorted : [magnetTorrent, scenarioTorrent].Pairwise (fun a b => hexLess b a = false) := by
    have hdata : magnetTorrent.infoHash.hexString.toList <
        scenarioTorrent.infoHash.hexString.toList := by decide
    have hlt : magnetTorrent.infoHash.hexString < scenarioTorrent.infoHash.hexString :=
      String.lt_iff_toList_lt.mpr hdata
    have hle := (hexLess_false_iff magnetTorrent scenarioTorrent).mpr (le_of_lt hlt)
    simp [hle]
  have e : sortSlice hexLess [scenarioTorrent, magnetTorrent] =
      [magnetTorrent, scenarioTorrent] :=
    sorted_perm_unique _ _ (hp.trans (List.Perm.swap _ _ _))
      (((hp.map _).nodup_iff).mpr (by decide)) hs hsorted
  rw [prettyHandler, prettyOrder, e]
  rfl

/-- C4, amended: when every session of the client's list has its metadata, the handler
returns without a panic after one write per session; the sessions written are a
permutation of the client's list in ascending order of the hex string of the info hash,
and the write for a session is its summary line. -/
theorem pretty_sorted_perm (sortSlice : Sorter) (hsort : SortsByHex sortSlice) (f : Fmt)
    (torrents : List Torrent)
    (hinfo : ∀ t ∈ torrents, t.length ≠ none ∧ t.numPieces ≠ none) :
    (prettyHandler sortSlice f torrents).panicked = false ∧
    (prettyWrites sortSlice f torrents).length = torrents.length ∧
    (prettyOrder sortSlice torrents).Perm torrents ∧
    (prettyOrder sortSlice torrents).Pairwise
      (fun a b => a.infoHash.hexString ≤ b.infoHash.hexString) ∧
    List.Forall₂
      (fun t w => ∃ len n, t.length = some len ∧ t.numPieces = some n ∧
        w = ("downloading " ++ f.quote t.name ++ ": " ++
              f.humanizeBytes (toUint64 t.bytesCompleted) ++ "/" ++
              f.humanizeBytes (toUint64 len) ++ ", ") ++
            ((toString (completedPieces t).1 ++ "/" ++ toString n.1 ++ " pieces completed (" ++
              toString (partialPieces t).1 ++ " partial)") ++ "\n"))
      (prettyOrder sortSlice torrents) (prettyWrites sortSlice f torrents) := by
  obtain ⟨hp, hs⟩ := hsort torrents
  have hinfo2 : ∀ t ∈ prettyOrder sortSlice torrents, t.length ≠ none ∧ t.numPieces ≠ none :=
    fun t ht => hinfo t (hp.subset ht)
  obtain ⟨h1, h2⟩ := writeSummaries_of_info f (prettyOrder sortSlice torrents) hinfo2
  refine ⟨h1, ?_, hp, ?_, h2⟩
  · have := h2.length_eq
    rw [← hp.length_eq]
    exact this.symm
  · exact hs.imp (fun {a b} h => (hexLess_false_iff a b).mp h)

/-- C4, amended, at two torrents with metadata handed over in descending order. -/
theorem pretty_sorted_perm_witness :
    SortsByHex insertionSlice ∧
    (∀ t ∈ [scenarioTorrent, emptyTorrent], t.length ≠ none ∧ t.numPieces ≠ none) ∧
    (prettyHandler insertionSlice demoFmt [scenarioTorrent, emptyTorrent]).panicked = false ∧
    (prettyWrites insertionSlice demoFmt [scenarioTorrent, emptyTorrent]).length = 2 ∧
    (prettyOrder insertionSlice [scenarioTorrent, emptyTorrent]).Perm
      [scenarioTorrent, emptyTorrent] ∧
    (prettyOrder insertionSlice [scenarioTorrent, emptyTorrent]).Pairwise
      (fun a b => a.infoHash.hexString ≤ b.infoHash.hexString) :=
  ⟨insertionSlice_sortsByHex, by decide,
    (pretty_sorted_perm insertionSlice insertionSlice_sortsByHex demoFmt
      [scenarioTorrent, emptyTorrent] (by decide)).1,
    (pretty_sorted_perm insertionSlice insertionSlice_sortsByHex demoFmt
      [scenarioTorrent, emptyTorrent] (by decide)).2.1,
    (pretty_sorted_perm insertionSlice insertionSlice_sortsByHex demoFmt
      [scenarioTorrent, emptyTorrent] (by decide)).2.2.1,
    (pretty_sorted_perm insertionSlice insertionSlice_sortsByHex demoFmt
      [scenarioTorrent, emptyTorrent] (by decide)).2.2.2.1⟩

/-- C5: for torrents with pairwise distinct info hashes, the handler's output is the same
for any two orders in which the client enumerates them: the same writes, the same body,
and the same point of panic if there is one. -/
theorem pretty_deterministic (sortSlice : Sorter) (hsort : SortsByHex sortSlice) (f : Fmt)
    (l1 l2 : List Torrent) (hperm : l1.Perm l2)
    (hnd : (l1.map (fun t => t.infoHash)).Nodup) :
    prettyWrites sortSlice f l1 = prettyWrites sortSlice f l2 ∧
    prettyBody sortSlice f l1 = prettyBody sortSlice f l2 ∧
    prettyHandler sortSlice f l1 = prettyHandler sortSlice f l2 := by
  obtain ⟨p1, s1⟩ := hsort l1
  obtain ⟨p2, s2⟩ := hsort l2
  have hp : (sortSlice hexLess l1).Perm (sortSlice hexLess l2) :=
    (p1.trans hperm).trans p2.symm
  have hn : ((sortSlice hexLess l1).map (fun t => t.infoHash)).Nodup :=
    ((p1.map _).nodup_iff).mpr hnd
  have e : sortSlice hexLess l1 = sortSlice hexLess l2 :=
    sorted_perm_unique _ _ hp hn s1 s2
  simp [prettyBody, prettyWrites, prettyHandler, prettyOrder, e]

/-- C5 at two torrents enumerated in either order. -/
theorem pretty_deterministic_witness :
    SortsByHex insertionSlice ∧
    [scenarioTorrent, emptyTorrent].Perm [emptyTorrent, scenarioTorrent] ∧
    ([scenarioTorrent, emptyTorrent].map (fun t => t.infoHash)).Nodup ∧
    prettyBody insertionSlice demoFmt [scenarioTorrent, emptyTorrent] =
      prettyBody insertionSlice demoFmt [emptyTorrent, scenarioTorrent] :=
  ⟨insertionSlice_sortsByHex, List.Perm.swap _ _ _, by decide,
    (pretty_deterministic insertionSlice insertionSlice_sortsByHex demoFmt
      [scenarioTorrent, emptyTorrent] [emptyTorrent, scenarioTorrent]
      (List.Perm.swap _ _ _) (by decide)).2.1⟩

/-- C9: when `NumPieces()` returns `n`, the run lengths are non-negative and add up to
`n`, and no run is both complete and partial, each run is added to at most one of the two
counters, the counters are the two sums without wrap-around, and
`completedPieces + partialPieces ≤ NumPieces()`. -/
theorem pretty_counts_le_numPieces (t : Torrent) (n : GoInt) (hn : t.numPieces = some n)
    (hnn : ∀ r ∈ t.pieceStateRuns, 0 ≤ r.length.1)
    (hsum : lengthSum t.pieceStateRuns = n.1)
    (hex : ∀ r ∈ t.pieceStateRuns, ¬ (r.complete = true ∧ r.partial_ = true)) :
    t.numPieces = some n ∧
    (∀ r ∈ t.pieceStateRuns, ∀ acc : GoInt × GoInt,
      (countRun acc r).1 = acc.1 ∨ (countRun acc r).2 = acc.2) ∧
    (completedPieces t).1 = completeSum t.pieceStateRuns ∧
    (partialPieces t).1 = partialSum t.pieceStateRuns ∧
    (completedPieces t).1 + (partialPieces t).1 ≤ n.1 := by
  obtain ⟨hc, hp⟩ := countPieces_val t.pieceStateRuns
  obtain ⟨i1, i2, i3⟩ := sums_le_lengthSum t.pieceStateRuns hnn hex
  have hb := n.2.2
  have ec : (completedPieces t).1 = completeSum t.pieceStateRuns :=
    hc.trans (wrapInt_of_range _ (by omega) (by omega))
  have ep : (partialPieces t).1 = partialSum t.pieceStateRuns :=
    hp.trans (wrapInt_of_range _ (by omega) (by omega))
  refine ⟨hn, ?_, ec, ep, by omega⟩
  intro r hr acc
  have he := hex r hr
  cases hc2 : r.complete <;> cases hp2 : r.partial_ <;> simp [countRun, hc2, hp2] at he ⊢

/-- C9 at the torrent of ten pieces with runs of 3 complete, 2 partial and 5 other. -/
theorem pretty_counts_le_numPieces_witness :
    scenarioTorrent.numPieces = some ⟨10, by omega⟩ ∧
    (∀ r ∈ scenarioTorrent.pieceStateRuns, 0 ≤ r.length.1) ∧
    lengthSum scenarioTorrent.pieceStateRuns = 10 ∧
    (∀ r ∈ scenarioTorrent.pieceStateRuns, ¬ (r.complete = true ∧ r.partial_ = true)) ∧
    (completedPieces scenarioTorrent).1 + (partialPieces scenarioTorrent).1 ≤ 10 :=
  ⟨rfl, by decide, by decide, by decide,
    (pretty_counts_le_numPieces scenarioTorrent ⟨10, by omega⟩ rfl (by decide) (by decide)
      (by decide)).2.2.2.2⟩

/-! ## Lemmas: reading call lists -/

theorem goroutinesOf_append {T : Type} (a b : List (Call T)) :
    goroutinesOf (a ++ b) = goroutinesOf a ++ goroutinesOf b := by
  induction a with
  | nil => rfl
  | cons x xs ih => cases x <;> simp [goroutinesOf, ih]

theorem dropsOf_append {T : Type} (a b : List (Call T)) :
    dropsOf (a ++ b) = dropsOf a ++ dropsOf b := by
  induction a with
  | nil => rfl
  | cons x xs ih => cases x <;> simp [dropsOf, ih]

theorem downloadAllsOf_append {T : Type} (a b : List (Call T)) :
    downloadAllsOf (a ++ b) = downloadAllsOf a ++ downloadAllsOf b := by
  induction a with
  | nil => rfl
  | cons x xs ih => cases x <;> simp [downloadAllsOf, ih]

theorem addsOf_append {T : Type} (a b : List (Call T)) :
    addsOf (a ++ b) = addsOf a ++ addsOf b := by
  induction a with
  | nil => rfl
  | cons x xs ih => cases x <;> simp [addsOf, ih]

theorem logIfErr_reads {T : Type} (msg : String) (err : Option String) :
    goroutinesOf (logIfErr msg err : List (Call T)) = [] ∧
    dropsOf (logIfErr msg err : List (Call T)) = [] ∧
    downloadAllsOf (logIfErr msg err : List (Call T)) = [] ∧
    addsOf (logIfErr msg err : List (Call T)) = [] := by
  cases err <;> simp [logIfErr, goroutinesOf, dropsOf, downloadAllsOf, addsOf]

theorem startDownload_reads {σ T : Type} (c : Client σ T) (s : σ) (t : Option T) :
    dropsOf (startDownload c s t) = [] ∧ downloadAllsOf (startDownload c s t) = [] ∧
    addsOf (startDownload c s t) = [] ∧
    goroutinesOf (startDownload c s t) =
      (match t with
        | none => []
        | some x => if c.completed s x then [] else [x]) := by
  cases t with
  | none => simp [startDownload, goroutinesOf, dropsOf, downloadAllsOf, addsOf]
  | some x =>
    cases h : c.completed s x <;>
      simp [startDownload, h, goroutinesOf, dropsOf, downloadAllsOf, addsOf]

theorem dispatch_reads {σ T : Type} (c : Client σ T) (s : σ) (ev : Event) :
    goroutinesOf (dispatch c s ev).calls = [] ∧ downloadAllsOf (dispatch c s ev).calls = [] := by
  unfold dispatch
  split
  · split
    · simp [goroutinesOf, downloadAllsOf, logIfErr_reads]
    · split
      · simp [goroutinesOf, downloadAllsOf, logIfErr_reads]
      · simp [goroutinesOf, downloadAllsOf]
  · split
    · split <;> simp [goroutinesOf, downloadAllsOf]
    · simp [goroutinesOf, downloadAllsOf]

theorem dispatch_added_drops {σ T : Type} (c : Client σ T) (s : σ) (ev : Event)
    (h : ev.change = Added) : dropsOf (dispatch c s ev).calls = [] := by
  unfold dispatch
  rw [if_pos h]
  split
  · simp [dropsOf, logIfErr_reads]
  · split
    · simp [dropsOf, logIfErr_reads]
    · simp [dropsOf]

theorem dispatch_removed {σ T : Type} (c : Client σ T) (s : σ) (ev : Event)
    (h : ev.change = Removed) :
    dispatch c s ev =
      (match c.torrent s ev.infoHash with
        | none => ⟨s, none, none, [Call.torrent ev.infoHash]⟩
        | some found =>
          ⟨c.drop s found, none, none, [Call.torrent ev.infoHash, Call.drop found]⟩) := by
  have hne : ¬ ev.change = Added := by rw [h]; decide
  unfold dispatch
  rw [if_neg hne, if_pos h]

theorem handleEvent_goroutines {σ T : Type} (c : Client σ T) (s : σ) (ev : Event) :
    goroutinesOf (handleEvent c s ev).2 =
      (match (dispatch c s ev).t with
        | none => []
        | some x => if c.completed (dispatch c s ev).client x then [] else [x]) ∧
    downloadAllsOf (handleEvent c s ev).2 = [] := by
  simp only [handleEvent, goroutinesOf_append, downloadAllsOf_append, dispatch_reads,
    startDownload_reads, List.nil_append, and_self, and_true]

/-! ## Lemmas: the goroutine -/

theorem resolved_eq_false_iff (b : Signal) : b.resolved = false ↔ b = Signal.blocked := by
  cases b <;> simp [Signal.resolved]

theorem resolved_eq_true_iff (b : Signal) : b.resolved = true ↔ b ≠ Signal.blocked := by
  cases b <;> simp [Signal.resolved]

theorem run_exited {T : Type} (sigs : List Signal) :
    (Goroutine.exited : Goroutine T).run sigs = (.exited, []) := by
  induction sigs with
  | nil => rfl
  | cons x xs ih => simp [Goroutine.run, Goroutine.step, ih]

theorem run_blocked {T : Type} (t : T) (pre sigs : List Signal)
    (hpre : ∀ b ∈ pre, b.resolved = false) :
    (Goroutine.awaitGotInfo t).run (pre ++ sigs) = (Goroutine.awaitGotInfo t).run sigs := by
  induction pre with
  | nil => rfl
  | cons b bs ih =>
    have hb : b.resolved = false := hpre b (List.mem_cons_self _ _)
    have := ih (fun x hx => hpre x (List.mem_cons_of_mem _ hx))
    simp [Goroutine.run, Goroutine.step, hb, this]

theorem run_never_resolved {T : Type} (t : T) (sigs : List Signal)
    (h : ∀ b ∈ sigs, b.resolved = false) :
    (downloadTrigger t).run sigs = (.awaitGotInfo t, []) := by
  have := run_blocked t sigs [] h
  simpa [downloadTrigger, Goroutine.run] using this

theorem run_resolved {T : Type} (t : T) (pre : List Signal) (x y : Signal) (post : List Signal)
    (hpre : ∀ b ∈ pre, b.resolved = false) (hx : x.resolved = true) :
    (downloadTrigger t).run (pre ++ x :: y :: post) = (.exited, [Call.downloadAll t]) := by
  unfold downloadTrigger
  rw [run_blocked t pre _ hpre]
  simp [Goroutine.run, Goroutine.step, hx, run_exited]

theorem run_cases {T : Type} (t : T) (sigs : List Signal) :
    ((downloadTrigger t).run sigs).2 = [] ∨
    (((downloadTrigger t).run sigs).2 = [Call.downloadAll t] ∧
      ∃ pre x y post, sigs = pre ++ x :: y :: post ∧ (∀ b ∈ pre, b.resolved = false) ∧
        x.resolved = true) := by
  induction sigs with
  | nil => left; rfl
  | cons a as ih =>
    cases ha : a.resolved
    · have e : (downloadTrigger t).run (a :: as) = (downloadTrigger t).run as := by
        have := run_blocked t [a] as (by simpa using ha)
        simpa [downloadTrigger] using this
      rw [e]
      rcases ih with h | ⟨h, pre, x, y, post, hs, hp, hx⟩
      · left; exact h
      · right
        refine ⟨h, a :: pre, x, y, post, by simp [hs], ?_, hx⟩
        intro b hb
        rcases List.mem_cons.mp hb with rfl | hb
        · exact ha
        · exact hp b hb
    · cases as with
      | nil => left; simp [downloadTrigger, Goroutine.run, Goroutine.step, ha]
      | cons y post =>
        right
        refine ⟨?_, [], a, y, post, rfl, by simp, ha⟩
        have := run_resolved t [] a y post (by simp) ha
        simpa using congrArg Prod.snd this

theorem downloadAllsAfter_eq {T : Type} (calls : List (Call T)) (sched : T → List Signal)
    (t : T) (h1 : downloadAllsOf calls = []) (h2 : goroutinesOf calls = [t]) :
    downloadAllsAfter calls sched = downloadAllsOf ((downloadTrigger t).run (sched t)).2 := by
  simp [downloadAllsAfter, h1, h2]

theorem eventLoop_append {σ T : Type} (c : Client σ T) (pre : List Event) :
    ∀ (s : σ) (post : List Event),
      eventLoop c s (pre ++ post) =
        ((eventLoop c (eventLoop c s pre).1 post).1,
          (eventLoop c s pre).2 ++ (eventLoop c (eventLoop c s pre).1 post).2) := by
  induction pre with
  | nil => intro s post; simp [eventLoop]
  | cons e es ih => intro s post; simp [eventLoop, ih]

theorem handleEvent_added_drops {σ T : Type} (c : Client σ T) (s : σ) (ev : Event)
    (h : ev.change = Added) : dropsOf (handleEvent c s ev).2 = [] := by
  simp only [handleEvent, dropsOf_append, dispatch_added_drops c s ev h,
    startDownload_reads, List.append_nil]

theorem eventLoop_events {σ T : Type} (c : Client σ T) (l : List Event) :
    ∀ s : σ, (eventLoop c s l).2.map Prod.fst = l := by
  induction l with
  | nil => intro s; rfl
  | cons e es ih => intro s; simp [eventLoop, ih]

theorem eventLoop_added_drops {σ T : Type} (c : Client σ T) (l : List Event) :
    ∀ s : σ, ∀ it ∈ (eventLoop c s l).2, it.1.change = Added → dropsOf it.2 = [] := by
  induction l with
  | nil => intro s it hit; simp [eventLoop] at hit
  | cons e es ih =>
    intro s it hit ha
    simp only [eventLoop, List.mem_cons] at hit
    rcases hit with rfl | hit
    · exact handleEvent_added_drops c s e ha
    · exact ih _ it hit ha

/-! ## The event loop -/

/-- C1: on a `Removed` event the loop drops a torrent exactly when the client's lookup
of the event's hash finds one, and drops the one found; when the lookup finds none the
iteration makes the lookup and nothing else (no drop, no add, no goroutine, no
`DownloadAll`), leaves the client state as it was, and the loop goes on with the next
event. -/
theorem removed_drops_iff_found {σ T : Type} (c : Client σ T) (s : σ) (ev : Event)
    (rest : List Event) (hrem : ev.change = Removed) :
    (∀ t, t ∈ dropsOf (handleEvent c s ev).2 ↔ c.torrent s ev.infoHash = some t) ∧
    dropsOf (handleEvent c s ev).2 = (c.torrent s ev.infoHash).toList ∧
    (∀ found, c.torrent s ev.infoHash = some found →
      handleEvent c s ev = (c.drop s found, [Call.torrent ev.infoHash, Call.drop found])) ∧
    (c.torrent s ev.infoHash = none →
      handleEvent c s ev = (s, [Call.torrent ev.infoHash]) ∧
      eventLoop c s (ev :: rest) =
        ((eventLoop c s rest).1, (ev, [Call.torrent ev.infoHash]) :: (eventLoop c s rest).2)) ∧
    addsOf (handleEvent c s ev).2 = [] ∧
    goroutinesOf (handleEvent c s ev).2 = [] ∧
    (∀ sched, downloadAllsAfter (handleEvent c s ev).2 sched = []) ∧
    eventLoop c s (ev :: rest) =
      ((eventLoop c (handleEvent c s ev).1 rest).1,
        (ev, (handleEvent c s ev).2) :: (eventLoop c (handleEvent c s ev).1 rest).2) := by
  have hd := dispatch_removed c s ev hrem
  cases hl : c.torrent s ev.infoHash with
  | none =>
    rw [hl] at hd
    have hh : handleEvent c s ev = (s, [Call.torrent ev.infoHash]) := by
      simp [handleEvent, hd, startDownload]
    refine ⟨?_, ?_, ?_, ?_, ?_, ?_, ?_, ?_⟩
    · intro t; simp [hh, dropsOf]
    · simp [hh, dropsOf]
    · intro found hf; cases hf
    · intro _; exact ⟨hh, by simp [eventLoop, hh]⟩
    · simp [hh, addsOf]
    · simp [hh, goroutinesOf]
    · intro sched; simp [hh, downloadAllsAfter, downloadAllsOf, goroutinesOf]
    · simp [eventLoop]
  | some found =>
    rw [hl] at hd
    have hh : handleEvent c s ev =
        (c.drop s found, [Call.torrent ev.infoHash, Call.drop found]) := by
      simp [handleEvent, hd, startDownload]
    refine ⟨?_, ?_, ?_, ?_, ?_, ?_, ?_, ?_⟩
    · intro t; simp [hh, dropsOf, eq_comm]
    · simp [hh, dropsOf]
    · intro f hf; cases hf; exact hh
    · intro hn; cases hn
    · simp [hh, addsOf]
    · simp [hh, goroutinesOf]
    · intro sched; simp [hh, downloadAllsAfter, downloadAllsOf, goroutinesOf]
    · simp [eventLoop]

/-- C1 at the removal of a hash the empty client does not know, and at the removal of
the hash of the one torrent of a client. -/
theorem removed_drops_iff_found_witness :
    removedMagnet.change = Removed ∧
    handleEvent demoClient [] removedMagnet = ([], [Call.torrent removedMagnet.infoHash]) ∧
    handleEvent demoClient [9] removedMagnet =
      ([], [Call.torrent removedMagnet.infoHash, Call.drop 9]) :=
  ⟨rfl,
    ((removed_drops_iff_found demoClient [] removedMagnet [] rfl).2.2.2.1 (by decide)).1,
    (removed_drops_iff_found demoClient [9] removedMagnet [] rfl).2.2.1 9 (by decide)⟩

/-- C2, as stated, fails: the add of a magnet URI yields a torrent that is not completed
and the loop starts its goroutine, but on a schedule of any length on which the receive
on `GotInfo()` stays blocked the goroutine never calls `DownloadAll`: no call, not one. -/
theorem blocked_goroutine_never_downloads :
    goroutinesOf (handleEvent demoClient [] addedMagnet).2 = [9] ∧
    (∀ n : Nat, downloadAllsAfter (handleEvent demoClient [] addedMagnet).2
      (fun _ => List.replicate n Signal.blocked) = []) ∧
    downloadAllsAfter (handleEvent demoClient [] addedMagnet).2
      (fun _ => [Signal.blocked, Signal.blocked, Signal.blocked]) ≠ [9] := by
  have hg : goroutinesOf (handleEvent demoClient [] addedMagnet).2 = [9] := by decide
  have hd : downloadAllsOf (handleEvent demoClient [] addedMagnet).2 = [] := by decide
  refine ⟨hg, ?_, by decide⟩
  intro n
  rw [downloadAllsAfter_eq _ _ 9 hd hg,
    run_never_resolved 9 _ (fun b hb => by rw [List.eq_of_mem_replicate hb]; rfl)]
  rfl

/-- C2, amended: when the add of an `Added` event yields a torrent that is not completed,
the loop starts one goroutine, for that torrent, and calls `DownloadAll` nowhere itself;
along any schedule the goroutine calls `DownloadAll` at most once; it calls it, once,
exactly when its receive on `GotInfo()` met a channel that was no longer blocked and the
goroutine was scheduled again, and never while every receive met a blocked channel.
When the torrent is completed, no goroutine is started and `DownloadAll` is never
called. -/
theorem added_starts_one_download {σ T : Type} (c : Client σ T) (s : σ) (ev : Event) (t : T)
    (_hadd : ev.change = Added) (ht : (dispatch c s ev).t = some t) :
    (c.completed (dispatch c s ev).client t = false →
      goroutinesOf (handleEvent c s ev).2 = [t] ∧
      downloadAllsOf (handleEvent c s ev).2 = [] ∧
      (∀ sched, downloadAllsAfter (handleEvent c s ev).2 sched = [] ∨
        downloadAllsAfter (handleEvent c s ev).2 sched = [t]) ∧
      (∀ sched, downloadAllsAfter (handleEvent c s ev).2 sched = [t] ↔
        ∃ pre x y post, sched t = pre ++ x :: y :: post ∧
          (∀ b ∈ pre, b = Signal.blocked) ∧ x ≠ Signal.blocked) ∧
      (∀ sched, (∀ b ∈ sched t, b = Signal.blocked) →
        downloadAllsAfter (handleEvent c s ev).2 sched = [])) ∧
    (c.completed (dispatch c s ev).client t = true →
      goroutinesOf (handleEvent c s ev).2 = [] ∧
      ∀ sched, downloadAllsAfter (handleEvent c s ev).2 sched = []) := by
  obtain ⟨hg, hdl⟩ := handleEvent_goroutines c s ev
  rw [ht] at hg
  constructor
  · intro hc
    have hg1 : goroutinesOf (handleEvent c s ev).2 = [t] := by simpa [hc] using hg
    have key : ∀ sched, downloadAllsAfter (handleEvent c s ev).2 sched =
        downloadAllsOf ((downloadTrigger t).run (sched t)).2 :=
      fun sched => downloadAllsAfter_eq _ sched t hdl hg1
    refine ⟨hg1, hdl, ?_, ?_, ?_⟩
    · intro sched
      rw [key]
      rcases run_cases t (sched t) with h | ⟨h, _⟩
      · left; simp [h, downloadAllsOf]
      · right; simp [h, downloadAllsOf]
    · intro sched
      rw [key]
      constructor
      · intro h
        rcases run_cases t (sched t) with h0 | ⟨_, pre, x, y, post, hs, hp, hx⟩
        · rw [h0] at h; simp [downloadAllsOf] at h
        · exact ⟨pre, x, y, post, hs,
            fun b hb => (resolved_eq_false_iff b).mp (hp b hb),
            fun e => by rw [e] at hx; exact Bool.noConfusion hx⟩
      · rintro ⟨pre, x, y, post, hs, hp, hx⟩
        rw [hs, run_resolved t pre x y post
          (fun b hb => (resolved_eq_false_iff b).mpr (hp b hb))
          ((resolved_eq_true_iff x).mpr hx)]
        simp [downloadAllsOf]
    · intro sched hb
      rw [key, run_never_resolved t (sched t)
        (fun b hm => (resolved_eq_false_iff b).mpr (hb b hm))]
      rfl
  · intro hc
    have hg0 : goroutinesOf (handleEvent c s ev).2 = [] := by simpa [hc] using hg
    refine ⟨hg0, ?_⟩
    intro sched
    simp [downloadAllsAfter, hdl, hg0]

/-- C2, amended, at the add of a magnet URI whose torrent is not completed: on a schedule
on which the channel resolves at the second scheduling of the goroutine `DownloadAll` is
called once, and on a schedule on which the receive stays blocked it is not called. -/
theorem added_starts_one_download_witness :
    addedMagnet.change = Added ∧
    (dispatch demoClient [] addedMagnet).t = some 9 ∧
    goroutinesOf (handleEvent demoClient [] addedMagnet).2 = [9] ∧
    downloadAllsAfter (handleEvent demoClient [] addedMagnet).2
      (fun _ => [Signal.blocked, Signal.gotInfo, Signal.blocked]) = [9] ∧
    downloadAllsAfter (handleEvent demoClient [] addedMagnet).2
      (fun _ => [Signal.blocked, Signal.blocked, Signal.blocked]) = [] :=
  ⟨rfl, by decide,
    ((added_starts_one_download demoClient [] addedMagnet 9 rfl (by decide)).1 (by decide)).1,
    (((added_starts_one_download demoClient [] addedMagnet 9 rfl (by decide)).1
      (by decide)).2.2.2.1 (fun _ => [Signal.blocked, Signal.gotInfo, Signal.blocked])).mpr
      ⟨[Signal.blocked], Signal.gotInfo, Signal.blocked, [], rfl, by decide, by decide⟩,
    ((added_starts_one_download demoClient [] addedMagnet 9 rfl (by decide)).1
      (by decide)).2.2.2.2 (fun _ => [Signal.blocked, Signal.blocked, Signal.blocked])
      (by decide)⟩

/-- C6: whatever the client returns, the loop makes one iteration per event of the
stream, in the order of the stream; the iterations before an event, the one for it and
those after it are what the loop does on the three parts in turn, so that no event ends
the loop or makes it skip a later one; and the iteration for an `Added` event drops no
torrent.  `mainExitCode` runs exactly these iterations. -/
theorem loop_handles_every_event {σ T : Type} (c : Client σ T) (s : σ) (evs : List Event) :
    (eventLoop c s evs).2.map Prod.fst = evs ∧
    (eventLoop c s evs).2.length = evs.length ∧
    (∀ pre ev post, evs = pre ++ ev :: post →
      (eventLoop c s evs).2 =
        (eventLoop c s pre).2 ++
          (ev, (handleEvent c (eventLoop c s pre).1 ev).2) ::
            (eventLoop c (handleEvent c (eventLoop c s pre).1 ev).1 post).2) ∧
    (∀ it ∈ (eventLoop c s evs).2, it.1.change = Added → dropsOf it.2 = []) ∧
    (mainExitCode c (.ok s) (.ok evs)).iterations = (eventLoop c s evs).2 := by
  refine ⟨eventLoop_events c evs s, ?_, ?_, eventLoop_added_drops c evs s, rfl⟩
  · have := congrArg List.length (eventLoop_events c evs s)
    simpa using this
  · intro pre ev post h
    rw [h, eventLoop_append]
    simp [eventLoop]

/-- C7, as stated, fails: after both initialisations have succeeded and the stream has
closed, here after one event, `mainExitCode` returns 0. -/
theorem stream_close_exit_code_demo :
    (mainExitCode demoClient (.ok []) (.ok [addedFile])).exitCode = 0 ∧
      ¬ (mainExitCode demoClient (.ok []) (.ok [addedFile])).exitCode ≠ 0 := by
  decide

/-- C7, amended: when both initialisations have succeeded and the stream closes,
`mainExitCode` returns 0, after one iteration per event; it returns 1 when either
initialisation fails. -/
theorem stream_close_exits_zero {σ T : Type} (c : Client σ T) (s : σ) (evs : List Event)
    (err : String) (w : Except String (List Event)) :
    (mainExitCode c (.ok s) (.ok evs)).exitCode = 0 ∧
    (mainExitCode c (.ok s) (.ok evs)).iterations.map Prod.fst = evs ∧
    (mainExitCode c (.error err) w).exitCode = 1 ∧
    (mainExitCode c (.ok s) (.error err)).exitCode = 1 := by
  exact ⟨rfl, eventLoop_events c evs s, rfl, rfl⟩

/-- C8, as stated, fails: a magnet URI is added, its torrent is removed before the
metadata arrived, and the channel then resolves as abandoned: the goroutine the loop had
started calls `DownloadAll`. -/
theorem removed_then_abandoned_downloads :
    (eventLoop demoClient [] [addedMagnet, removedMagnet]) =
      ([], [(addedMagnet, [Call.addMagnet "magnet:?x", Call.completed 9, Call.go 9]),
            (removedMagnet, [Call.torrent (hashOf 9), Call.drop 9])]) ∧
    (downloadTrigger 9).run [Signal.blocked, Signal.abandoned, Signal.abandoned] =
      (Goroutine.exited, [Call.downloadAll 9]) := by
  decide

/-- C8, amended: a magnet URI is added, yielding a torrent that is not completed, and
the same hash is removed while the torrent is active: the loop starts one goroutine and
then drops the torrent.  As long as the channel has not resolved the goroutine calls
nothing and stays at its receive; once the channel resolves, by the metadata or by
abandonment, the goroutine calls `DownloadAll` once at its next scheduling and exits. -/
theorem removed_before_metadata {σ T : Type} (c : Client σ T) (s s1 : σ) (ev1 ev2 : Event)
    (t : T) (err : Option String)
    (h1 : ev1.change = Added) (hp : ev1.torrentFilePath = "") (hu : ev1.magnetURI ≠ "")
    (hadd : c.addMagnet s ev1.magnetURI = (s1, some t, err))
    (hinc : c.completed s1 t = false)
    (h2 : ev2.change = Removed) (hid : ev2.infoHash = ev1.infoHash)
    (hfound : c.torrent s1 ev1.infoHash = some t) :
    eventLoop c s [ev1, ev2] =
      (c.drop s1 t,
        [(ev1, Call.addMagnet ev1.magnetURI :: (logIfErr "error adding magnet: " err ++
            [Call.completed t, Call.go t])),
         (ev2, [Call.torrent ev1.infoHash, Call.drop t])]) ∧
    (∀ sigs, (∀ b ∈ sigs, b.resolved = false) →
      (downloadTrigger t).run sigs = (.awaitGotInfo t, [])) ∧
    (∀ pre x y post, (∀ b ∈ pre, b.resolved = false) → x.resolved = true →
      (downloadTrigger t).run (pre ++ x :: y :: post) = (.exited, [Call.downloadAll t])) := by
  refine ⟨?_, run_never_resolved t, run_resolved t⟩
  have hd1 : dispatch c s ev1 =
      ⟨s1, some t, err, Call.addMagnet ev1.magnetURI :: logIfErr "error adding magnet: " err⟩ := by
    unfold dispatch
    rw [if_pos h1, if_neg (by simp [hp]), if_pos hu]
    simp [hadd]
  have hh1 : handleEvent c s ev1 =
      (s1, Call.addMagnet ev1.magnetURI :: (logIfErr "error adding magnet: " err ++
        [Call.completed t, Call.go t])) := by
    simp [handleEvent, hd1, startDownload, hinc]
  have hd2 := dispatch_removed c s1 ev2 h2
  rw [hid, hfound] at hd2
  have hh2 : handleEvent c s1 ev2 =
      (c.drop s1 t, [Call.torrent ev1.infoHash, Call.drop t]) := by
    simp [handleEvent, hd2, startDownload]
  simp [eventLoop, hh1, hh2]

/-- C8, amended, at the magnet URI of nine characters and the schedule on which the
channel is never seen resolved. -/
theorem removed_before_metadata_witness :
    addedMagnet.change = Added ∧ addedMagnet.torrentFilePath = "" ∧
    addedMagnet.magnetURI ≠ "" ∧
    demoClient.addMagnet [] addedMagnet.magnetURI = ([9], some 9, none) ∧
    demoClient.completed [9] 9 = false ∧
    removedMagnet.change = Removed ∧ removedMagnet.infoHash = addedMagnet.infoHash ∧
    demoClient.torrent [9] addedMagnet.infoHash = some 9 ∧
    (downloadTrigger 9).run [Signal.blocked, Signal.blocked] = (.awaitGotInfo 9, []) :=
  ⟨rfl, rfl, by decide, by decide, by decide, rfl, rfl, by decide,
    (removed_before_metadata demoClient [] [9] addedMagnet removedMagnet 9 none
      rfl rfl (by decide) (by decide) (by decide) rfl rfl (by decide)).2.1
      [Signal.blocked, Signal.blocked] (by decide)⟩

/-- C10, as stated, fails: the add of the file `merge` reports an error and returns a
torrent that is not completed: the loop logs the error and starts the goroutine, which
calls `DownloadAll` once the metadata has arrived. -/
theorem add_error_with_torrent_downloads :
    (dispatch demoClient [] addedMerge).err = some "merge failed" ∧
    (handleEvent demoClient [] addedMerge).2 =
      [Call.addTorrentFromFile "merge",
        Call.logPrintf "error adding torrent to client: merge failed",
        Call.completed 5, Call.go 5] ∧
    downloadAllsAfter (handleEvent demoClient [] addedMerge).2
      (fun _ => [Signal.gotInfo, Signal.gotInfo]) = [5] := by
  decide

/-- C10, amended: on an `Added` event the loop starts a goroutine exactly when the add
returned a torrent that is not completed, whether or not it also reported an error; when
the add returns no torrent, as with an error and a nil torrent, no goroutine is started
and `DownloadAll` is never called for the event. -/
theorem added_goroutine_iff_torrent {σ T : Type} (c : Client σ T) (s : σ) (ev : Event)
    (hadd : ev.change = Added) :
    goroutinesOf (handleEvent c s ev).2 =
      (match (dispatch c s ev).t with
        | none => []
        | some t => if c.completed (dispatch c s ev).client t then [] else [t]) ∧
    ((dispatch c s ev).t = none →
      goroutinesOf (handleEvent c s ev).2 = [] ∧
      ∀ sched, downloadAllsAfter (handleEvent c s ev).2 sched = []) ∧
    dropsOf (handleEvent c s ev).2 = [] := by
  obtain ⟨hg, hdl⟩ := handleEvent_goroutines c s ev
  refine ⟨hg, ?_, ?_⟩
  · intro hn
    rw [hn] at hg
    refine ⟨hg, ?_⟩
    intro sched
    simp [downloadAllsAfter, hdl, hg]
  · exact handleEvent_added_drops c s ev hadd

/-- C10, amended, at the add of a file on which the client reports an error and no
torrent. -/
theorem added_goroutine_iff_torrent_witness :
    addedBad.change = Added ∧
    (dispatch demoClient [] addedBad).err = some "malformed" ∧
    (dispatch demoClient [] addedBad).t = none ∧
    goroutinesOf (handleEvent demoClient [] addedBad).2 = [] :=
  ⟨rfl, by decide, by decide,
    ((added_goroutine_iff_torrent demoClient [] addedBad rfl).2.1 (by decide)).1⟩

end TorrentBatch
